import Mathlib

/-!
# Verification of the typegoose-cursor-pagination core

A shallow embedding of the cursor-pagination plugin
(`src/index.ts`, `src/response.ts`) together with a model, taken from the
specification, of the parts of the package that sit outside the provided
sources (`src/utils/bsonUrlEncoding.ts`, the sort planner of
`src/query.ts`).  JavaScript numbers that matter here (the `limit` option)
are modelled as `JsNum` (an integer or `NaN`); documents are modelled as
nested string-keyed maps (`JsVal`); JavaScript truthiness and the partial
member accesses of the source are made explicit (`Option` results model
thrown `TypeError`s).
-/

/-- A JavaScript/BSON value as stored in a document: `undefined`, `null`,
32/64-bit integers (collapsed to `Int`), a double (modelled by its 64-bit
pattern, no arithmetic is ever performed on it), a string, a date (epoch
milliseconds), an ObjectId (modelled by its 12-byte value), or a nested
document (ordered field list, unique keys). -/
inductive JsVal where
  | vundef : JsVal
  | vnull : JsVal
  | vint : Int → JsVal
  | vdouble : Nat → JsVal
  | vstr : String → JsVal
  | vdate : Int → JsVal
  | void : Nat → JsVal
  | vdoc : List (String × JsVal) → JsVal

/-- A JavaScript number as used for the `limit` option: `NaN` (also standing
for an absent/`undefined` limit, which behaves like `NaN` in every
comparison and in `isNaN`) or an integer. -/
inductive JsNum where
  | nan : JsNum
  | num : Int → JsNum
deriving DecidableEq, Repr

namespace JsNum

/-- JavaScript truthiness of a number: `NaN` and `0` are falsy. -/
def truthy : JsNum → Bool
  | nan => false
  | num i => i ≠ 0

/-- `isNaN(x)`. -/
def isNaN : JsNum → Bool
  | nan => true
  | num _ => false

/-- `x < c` for a number `x` and an integer constant `c`; false when `NaN`. -/
def ltInt : JsNum → Int → Bool
  | nan, _ => false
  | num i, c => i < c

/-- `x === c` for an integer constant `c`; false when `NaN`. -/
def eqInt : JsNum → Int → Bool
  | nan, _ => false
  | num i, c => i = c

/-- `x + c`; `NaN` propagates. -/
def addInt : JsNum → Int → JsNum
  | nan, _ => nan
  | num i, c => num (i + c)

/-- `n > x` where `n` is an array length (a `Nat`); false when `x` is `NaN`. -/
def natGt (n : Nat) : JsNum → Bool
  | nan => false
  | num i => (n : Int) > i

end JsNum

/-- JavaScript truthiness of an optional string (an absent cursor is
`undefined`, and the empty string is also falsy). -/
def strTruthy : Option String → Bool
  | none => false
  | some s => s ≠ ""

/-- Lookup of a field in a document's field list (first match, as in a
JavaScript object where keys are unique anyway). -/
def lookupField (k : String) (fields : List (String × JsVal)) : Option JsVal :=
  (fields.find? (fun p => p.1 = k)).map (fun p => p.2)

/-- `R.path(path, doc)`: walk a dotted path through nested documents,
yielding `undefined` as soon as a step is missing or the current value is
not a document. -/
def pathLookup : List String → JsVal → JsVal
  | [], v => v
  | k :: ks, JsVal.vdoc fields =>
      match lookupField k fields with
      | some v => pathLookup ks v
      | none => JsVal.vundef
  | _ :: _, _ => JsVal.vundef

/-- `doc._id` (the value `undefined` when the document has no `_id`). -/
def getId (d : JsVal) : JsVal := pathLookup ["_id"] d

example : pathLookup ["a", "b"]
    (JsVal.vdoc [("a", JsVal.vdoc [("b", JsVal.vint 3)])]) = JsVal.vint 3 := rfl

example : getId (JsVal.vdoc [("_id", JsVal.void 7)]) = JsVal.void 7 := rfl

/-! ## Cursor codec

Modelled from the spec: `src/utils/bsonUrlEncoding.ts` is not among the
provided sources.  Per the spec (§4.1), `encode` is a lossless serialization
of an ordered sequence of typed values (at least integers, floating point,
strings, dates, unique identifiers, and null) followed by a URL-safe textual
transform, and `decode` recovers each value with its original type, failing
on malformed tokens.  The model below serializes to a URL-safe alphabet
(decimal digits, `.`, and the tag letters) directly. -/

/-- The digit character for `d < 10`. -/
def dChar (d : Nat) : Char := Char.ofNat (48 + d)

/-- The numeric value of a digit character. -/
def dVal (c : Char) : Nat := c.toNat - 48

/-- Is this one of the characters `0`–`9`? -/
def isDig (c : Char) : Bool := 48 ≤ c.toNat && c.toNat ≤ 57

/-- Little-endian base-10 digits with explicit fuel (structural recursion,
so that concrete tokens evaluate by kernel reduction). -/
def digitsFuel : Nat → Nat → List Nat
  | 0, _ => []
  | fuel + 1, n => if n = 0 then [] else n % 10 :: digitsFuel fuel (n / 10)

/-- Little-endian base-10 digits of a natural number. -/
def natDigits (n : Nat) : List Nat := digitsFuel n n

/-- Serialize a natural number: its base-10 digits (little-endian) followed
by the terminator `.`. -/
def encNat (n : Nat) : List Char := (natDigits n).map dChar ++ ['.']

/-- Parse a natural number: read digit characters up to a `.` terminator. -/
def parseNat (cs : List Char) : Option (Nat × List Char) :=
  match cs.dropWhile isDig with
  | c :: rest =>
      if c = '.' then some (Nat.ofDigits 10 ((cs.takeWhile isDig).map dVal), rest)
      else none
  | [] => none

/-- Serialize an integer: a sign tag (`m` for negative, `p` otherwise)
followed by the magnitude. -/
def encInt (i : Int) : List Char :=
  (if i < 0 then 'm' else 'p') :: encNat i.natAbs

/-- Parse an integer. -/
def parseInt (cs : List Char) : Option (Int × List Char) :=
  match cs with
  | c :: rest =>
      if c = 'm' then (parseNat rest).map (fun p => (-(p.1 : Int), p.2))
      else if c = 'p' then (parseNat rest).map (fun p => ((p.1 : Int), p.2))
      else none
  | [] => none

/-- Serialize a string: its length, then each character's codepoint. -/
def encStr (s : String) : List Char :=
  encNat s.data.length ++ s.data.flatMap (fun ch => encNat ch.toNat)

/-- Parse `n` codepoints. -/
def parseChars : Nat → List Char → Option (List Char × List Char)
  | 0, cs => some ([], cs)
  | n + 1, cs =>
      match parseNat cs with
      | some (m, rest) =>
          match parseChars n rest with
          | some (l, rest') => some (Char.ofNat m :: l, rest')
          | none => none
      | none => none

/-- Parse a string. -/
def parseStr (cs : List Char) : Option (String × List Char) :=
  match parseNat cs with
  | some (n, rest) =>
      match parseChars n rest with
      | some (l, rest') => some (String.mk l, rest')
      | none => none
  | none => none

/-- Serialize one typed value with a kind tag.  The spec requires at least
the six scalar kinds; a nested-document value is given a bare tag (`c`) with
no payload in this model. -/
def encVal : JsVal → List Char
  | .vundef => ['u']
  | .vnull => ['n']
  | .vint i => 'i' :: encInt i
  | .vdouble b => 'd' :: encNat b
  | .vstr s => 's' :: encStr s
  | .vdate m => 't' :: encInt m
  | .void o => 'o' :: encNat o
  | .vdoc _ => ['c']

/-- Parse one typed value. -/
def parseVal (cs : List Char) : Option (JsVal × List Char) :=
  match cs with
  | [] => none
  | c :: rest =>
      if c = 'u' then some (.vundef, rest)
      else if c = 'n' then some (.vnull, rest)
      else if c = 'i' then (parseInt rest).map (fun p => (JsVal.vint p.1, p.2))
      else if c = 'd' then (parseNat rest).map (fun p => (JsVal.vdouble p.1, p.2))
      else if c = 's' then (parseStr rest).map (fun p => (JsVal.vstr p.1, p.2))
      else if c = 't' then (parseInt rest).map (fun p => (JsVal.vdate p.1, p.2))
      else if c = 'o' then (parseNat rest).map (fun p => (JsVal.void p.1, p.2))
      else if c = 'c' then some (.vdoc [], rest)
      else none

/-- Parse `n` values. -/
def parseVals : Nat → List Char → Option (List JsVal × List Char)
  | 0, cs => some ([], cs)
  | n + 1, cs =>
      match parseVal cs with
      | some (v, rest) =>
          match parseVals n rest with
          | some (vs, rest') => some (v :: vs, rest')
          | none => none
      | none => none

/-- The scalar kinds the spec's round-trip contract covers: integers,
floating point, strings, date/time instants, unique identifiers, null. -/
def SupportedVal : JsVal → Bool
  | .vnull => true
  | .vint _ => true
  | .vdouble _ => true
  | .vstr _ => true
  | .vdate _ => true
  | .void _ => true
  | .vundef => false
  | .vdoc _ => false

namespace bsonUrlEncoding

/-- Modelled from the spec: `bsonUrlEncoding.encode` — lossless, URL-safe
serialization of an ordered sequence of typed values (a count followed by
each tagged value). -/
def encode (vs : List JsVal) : String :=
  String.mk (encNat vs.length ++ vs.flatMap encVal)

/-- Modelled from the spec: `bsonUrlEncoding.decode` — recover the typed
value sequence, failing (`MalformedCursor`) on a token that does not parse
or has trailing garbage. -/
def decode (t : String) : Option (List JsVal) :=
  match parseNat t.data with
  | some (n, rest) =>
      match parseVals n rest with
      | some (vs, rest') => if rest' = [] then some vs else none
      | none => none
  | none => none

end bsonUrlEncoding

/-! ### Round-trip lemmas for the codec -/

theorem takeWhile_append_stop {α} (p : α → Bool) (c : α) (r : List α) :
    ∀ l : List α, (∀ x ∈ l, p x = true) → p c = false →
      (l ++ c :: r).takeWhile p = l ∧ (l ++ c :: r).dropWhile p = c :: r := by
  intro l hl hc
  induction l with
  | nil => simp [List.takeWhile, List.dropWhile, hc]
  | cons a l ih =>
      have ha : p a = true := hl a (by simp)
      obtain ⟨h1, h2⟩ := ih (fun x hx => hl x (by simp [hx]))
      simp [List.takeWhile_cons, List.dropWhile_cons, ha, h1, h2]

theorem dChar_spec {d : Nat} (hd : d < 10) :
    isDig (dChar d) = true ∧ dVal (dChar d) = d := by
  interval_cases d <;> exact ⟨rfl, rfl⟩

theorem digitsFuel_lt (fuel : Nat) :
    ∀ n, ∀ d ∈ digitsFuel fuel n, d < 10 := by
  induction fuel with
  | zero => intro n d hd; simp [digitsFuel] at hd
  | succ fuel ih =>
      intro n d hd
      by_cases hn : n = 0
      · simp [digitsFuel, hn] at hd
      · simp only [digitsFuel, if_neg hn, List.mem_cons] at hd
        rcases hd with h | h
        · omega
        · exact ih _ d h

theorem ofDigits_digitsFuel {fuel n : Nat} (h : n ≤ fuel) :
    Nat.ofDigits 10 (digitsFuel fuel n) = n := by
  induction fuel generalizing n with
  | zero => interval_cases n; simp [digitsFuel, Nat.ofDigits]
  | succ fuel ih =>
      by_cases hn : n = 0
      · simp [digitsFuel, hn, Nat.ofDigits]
      · have hdiv : n / 10 < n := Nat.div_lt_self (by omega) (by omega)
        rw [digitsFuel, if_neg hn, Nat.ofDigits_cons, ih (by omega)]
        omega

theorem ofDigits_natDigits (n : Nat) : Nat.ofDigits 10 (natDigits n) = n :=
  ofDigits_digitsFuel (Nat.le_refl n)

theorem natDigits_lt (n : Nat) : ∀ d ∈ natDigits n, d < 10 :=
  digitsFuel_lt n n

theorem parseNat_encNat (n : Nat) (rest : List Char) :
    parseNat (encNat n ++ rest) = some (n, rest) := by
  have hall : ∀ x ∈ (natDigits n).map dChar, isDig x = true := by
    intro x hx
    obtain ⟨d, hd, rfl⟩ := List.mem_map.mp hx
    exact (dChar_spec (natDigits_lt n d hd)).1
  obtain ⟨h1, h2⟩ :=
    takeWhile_append_stop isDig '.' rest ((natDigits n).map dChar) hall (by decide)
  have he : encNat n ++ rest = (natDigits n).map dChar ++ '.' :: rest := by
    simp [encNat]
  have hmap : ((natDigits n).map dChar).map dVal = natDigits n := by
    rw [List.map_map]
    exact List.map_congr_left (fun d hd => (dChar_spec (natDigits_lt n d hd)).2)
      |>.trans (List.map_id _)
  rw [he, parseNat, h1, h2, hmap]
  simp [ofDigits_natDigits]

theorem parseInt_encInt (i : Int) (rest : List Char) :
    parseInt (encInt i ++ rest) = some (i, rest) := by
  by_cases h : i < 0
  · rw [encInt, if_pos h]
    simp [parseInt, parseNat_encNat]
    rw [abs_of_neg h, neg_neg]
  · rw [encInt, if_neg h]
    simp [parseInt, parseNat_encNat]
    exact not_lt.mp h

theorem parseChars_encChars (l : List Char) (rest : List Char) :
    parseChars l.length (l.flatMap (fun ch => encNat ch.toNat) ++ rest) =
      some (l, rest) := by
  induction l with
  | nil => simp [parseChars]
  | cons c l ih =>
      simp [parseChars, List.flatMap_cons, List.append_assoc, parseNat_encNat,
        ih, Char.ofNat_toNat]

theorem parseStr_encStr (s : String) (rest : List Char) :
    parseStr (encStr s ++ rest) = some (s, rest) := by
  rw [encStr, List.append_assoc, parseStr, parseNat_encNat]
  dsimp only
  rw [parseChars_encChars s.data rest]

theorem parseVal_encVal {v : JsVal} (hv : SupportedVal v = true)
    (rest : List Char) : parseVal (encVal v ++ rest) = some (v, rest) := by
  cases v with
  | vnull => simp [encVal, parseVal]
  | vint i => simp [encVal, parseVal, parseInt_encInt]
  | vdouble b => simp [encVal, parseVal, parseNat_encNat]
  | vstr s => simp [encVal, parseVal, parseStr_encStr]
  | vdate m => simp [encVal, parseVal, parseInt_encInt]
  | void o => simp [encVal, parseVal, parseNat_encNat]
  | vundef => simp [SupportedVal] at hv
  | vdoc fs => simp [SupportedVal] at hv

theorem parseVals_encVals (vs : List JsVal) (hvs : ∀ v ∈ vs, SupportedVal v = true)
    (rest : List Char) :
    parseVals vs.length (vs.flatMap encVal ++ rest) = some (vs, rest) := by
  induction vs with
  | nil => simp [parseVals]
  | cons v vs ih =>
      have hv : SupportedVal v = true := hvs v (by simp)
      rw [List.flatMap_cons, List.append_assoc]
      simp [parseVals, parseVal_encVal hv,
        ih (fun w hw => hvs w (by simp [hw]))]

/-! ## `src/response.ts` — page assembly -/

/-- `SortOptions`: the caller's insertion-ordered field-path → direction
mapping (a JavaScript object, so keys are unique). -/
abbrev SortOptions := List (String × Int)

/-- `IPaginateOptions` (the fields the core reads). -/
structure IPaginateOptions where
  limit : JsNum
  next : Option String
  previous : Option String
  sortOptions : SortOptions

/-- `IPaginateResult<T>` as built by `prepareResponse`. -/
structure IPaginateResult where
  docs : List JsVal
  hasPrevious : Bool
  hasNext : Bool
  next : Option String
  previous : Option String
  totalDocs : Option Int

/-- `Object.keys(sortOptions).filter((key) => key !== "_id")`. -/
def keysExceptId (sortOptions : SortOptions) : List String :=
  (sortOptions.map Prod.fst).filter (fun k => k ≠ "_id")

/-- The value tuple `[...values, doc._id]` that `prepareCursor` encodes: one
`R.path`-extracted value per non-`_id` sort key, then the document's `_id`. -/
def cursorValueTuple (sortOptions : SortOptions) (doc : JsVal) : List JsVal :=
  (keysExceptId sortOptions).map (fun k => pathLookup (k.splitOn ".") doc) ++
    [getId doc]

/-- `prepareCursor` of `src/response.ts`. -/
def prepareCursor (doc : JsVal) (sortOptions : SortOptions) : String :=
  bsonUrlEncoding.encode (cursorValueTuple sortOptions doc)

/-- `options.limit && _docs.length > options.limit` (the `hasMore` test of
`prepareResponse`, with JavaScript truthiness and `NaN`-comparison rules). -/
def hasMoreOf (options : IPaginateOptions) (docs0 : List JsVal) : Bool :=
  options.limit.truthy && JsNum.natGt docs0.length options.limit

/-- The content of the batch array after `prepareResponse` ran on it:
`_docs.pop()` removes the last element when `hasMore`, and
`_docs.reverse()` reverses in place when `options.previous` is set; the
local `docs` aliases the caller's `_docs` throughout. -/
def finalBatchState (docs0 : List JsVal) (options : IPaginateOptions) :
    List JsVal :=
  let docs1 := if hasMoreOf options docs0 then docs0.dropLast else docs0
  if strTruthy options.previous then docs1.reverse else docs1

/-- `flag ? prepareCursor(doc, sortOptions) : undefined` where `doc` is
`docs[0]` or `docs[docs.length - 1]`: when the flag is set and the index is
out of range, `prepareCursor(undefined)` evaluates `undefined._id` and
throws a `TypeError` (modelled as the outer `none`). -/
def edgeCursor (flag : Bool) (doc? : Option JsVal) (sortOptions : SortOptions) :
    Option (Option String) :=
  if flag then
    match doc? with
    | some d => some (some (prepareCursor d sortOptions))
    | none => none
  else some none

/-- `prepareResponse` of `src/response.ts`; `none` models a thrown
`TypeError`. -/
def prepareResponse (docs0 : List JsVal) (options : IPaginateOptions)
    (totalDocs : Option Int) : Option IPaginateResult :=
  let hasMore := hasMoreOf options docs0
  let docs := finalBatchState docs0 options
  let hasPrevious := strTruthy options.next || (strTruthy options.previous && hasMore)
  let hasNext := strTruthy options.previous || hasMore
  match edgeCursor hasNext docs.getLast? options.sortOptions,
        edgeCursor hasPrevious docs.head? options.sortOptions with
  | some n, some p =>
      some (IPaginateResult.mk docs hasPrevious hasNext n p totalDocs)
  | _, _ => none

/-! ## `src/index.ts` — the plugin's `findPaged` and `aggregatePaged`

The data store itself is external: it is abstracted as a function `fetch`
from the limit value the source passes (`.limit(...)` / `$limit`) to the
returned batch, plus the result of `countDocuments` (for `findPaged`) or
the `totalCount` facet array (for `aggregatePaged`). -/

/-- `IPluginOptions`; the two flags are booleans (an absent flag and `false`
behave identically everywhere they are read), `defaultLimit` stays optional
because the source tests its truthiness. -/
structure IPluginOptions where
  dontReturnTotalDocs : Bool
  dontAllowUnlimitedResults : Bool
  defaultLimit : Option Int

/-- `pluginOptions && pluginOptions.defaultLimit ? pluginOptions.defaultLimit
: 10` (a configured `0` is falsy and yields `10`). -/
def resolvedDefaultLimit : Option IPluginOptions → Int
  | some po =>
      match po.defaultLimit with
      | some d => if d ≠ 0 then d else 10
      | none => 10
  | none => 10

/-- `pluginOptions && pluginOptions.dontReturnTotalDocs`. -/
def readDontReturnTotalDocs : Option IPluginOptions → Bool
  | some po => po.dontReturnTotalDocs
  | none => false

/-- `pluginOptions && pluginOptions.dontAllowUnlimitedResults`. -/
def readDontAllowUnlimited : Option IPluginOptions → Bool
  | some po => po.dontAllowUnlimitedResults
  | none => false

/-- `useDefaultLimit` (identical in `findPaged` and `aggregatePaged`):
`isNaN(options.limit) || options.limit < 0 || (options.limit === 0 &&
pluginOptions && pluginOptions.dontAllowUnlimitedResults)`. -/
def useDefaultLimit (po : Option IPluginOptions) (limit : JsNum) : Bool :=
  limit.isNaN || limit.ltInt 0 || (limit.eqInt 0 && readDontAllowUnlimited po)

/-- `unlimited`: `options.limit === 0 && (!pluginOptions ||
!pluginOptions.dontAllowUnlimitedResults)`. -/
def unlimitedMode (po : Option IPluginOptions) (limit : JsNum) : Bool :=
  limit.eqInt 0 && !readDontAllowUnlimited po

/-- `options.limit = useDefaultLimit ? defaultLimit : options.limit`. -/
def sanitizedLimit (po : Option IPluginOptions) (limit : JsNum) : JsNum :=
  if useDefaultLimit po limit then JsNum.num (resolvedDefaultLimit po) else limit

/-- The value `findPaged` passes to `.limit(...)`:
`unlimited ? 0 : options.limit + 1`, evaluated after the
`options.limit` assignment. -/
def findPagedFetchLimit (po : Option IPluginOptions) (limit0 : JsNum) : JsNum :=
  if unlimitedMode po limit0 then JsNum.num 0
  else (sanitizedLimit po limit0).addInt 1

/-- The value `aggregatePaged` puts in its `$limit` stage:
`const limit = unlimited ? 0 : options.limit + 1`, evaluated before the
`options.limit` assignment. -/
def aggregatePagedFetchLimit (po : Option IPluginOptions) (limit0 : JsNum) :
    JsNum :=
  if unlimitedMode po limit0 then JsNum.num 0 else limit0.addInt 1

/-- `findPaged` of `src/index.ts`. -/
def findPaged (po : Option IPluginOptions) (options : IPaginateOptions)
    (fetch : JsNum → List JsVal) (count : Int) : Option IPaginateResult :=
  let options' := IPaginateOptions.mk (sanitizedLimit po options.limit)
    options.next options.previous options.sortOptions
  let docs := fetch (findPagedFetchLimit po options.limit)
  if readDontReturnTotalDocs po then prepareResponse docs options' none
  else prepareResponse docs options' (some count)

/-- `aggregatePaged` of `src/index.ts`.  `countArr` is the `totalCount`
facet array; in the branch taken when `dontReturnTotalDocs` is set the
source reads `totalCount[0].count`, which throws when the array is empty
(modelled as `none`). -/
def aggregatePaged (po : Option IPluginOptions) (options : IPaginateOptions)
    (fetch : JsNum → List JsVal) (countArr : List Int) :
    Option IPaginateResult :=
  let options' := IPaginateOptions.mk (sanitizedLimit po options.limit)
    options.next options.previous options.sortOptions
  let docs := fetch (aggregatePagedFetchLimit po options.limit)
  if readDontReturnTotalDocs po then
    match countArr.head? with
    | some c => prepareResponse docs options' (some c)
    | none => none
  else prepareResponse docs options' none

/-- Modelled from the spec: the SortPlanner's effective sort-key list — the
caller's sort fields in order, with the identifier `_id` appended last when
not already present (`generateSort` of `src/query.ts` is not among the
provided sources). -/
def effectiveSortKeys (keys : List String) : List String :=
  keys ++ (if "_id" ∈ keys then [] else ["_id"])

/-! ## General lemmas about `prepareResponse` -/

/-- Inversion: what a successfully assembled `IPaginateResult` contains. -/
theorem prepareResponse_some_inv {docs0 : List JsVal}
    {options : IPaginateOptions} {totalDocs : Option Int} {r : IPaginateResult}
    (hr : prepareResponse docs0 options totalDocs = some r) :
    r.docs = finalBatchState docs0 options ∧
    r.hasPrevious = (strTruthy options.next ||
      (strTruthy options.previous && hasMoreOf options docs0)) ∧
    r.hasNext = (strTruthy options.previous || hasMoreOf options docs0) ∧
    r.totalDocs = totalDocs ∧
    edgeCursor r.hasNext r.docs.getLast? options.sortOptions = some r.next ∧
    edgeCursor r.hasPrevious r.docs.head? options.sortOptions = some r.previous := by
  unfold prepareResponse at hr
  dsimp only at hr
  split at hr
  case _ n p hn hp =>
    cases hr
    exact ⟨rfl, rfl, rfl, rfl, hn, hp⟩
  case _ => exact absurd hr (by simp)

theorem edgeCursor_some_doc (flag : Bool) (d : JsVal) (so : SortOptions) :
    edgeCursor flag (some d) so =
      some (if flag then some (prepareCursor d so) else none) := by
  cases flag <;> rfl

/-- With a non-negative integer limit, the trimmed (and possibly reversed)
batch is non-empty whenever the incoming batch is. -/
theorem finalBatchState_ne_nil {docs0 : List JsVal} {options : IPaginateOptions}
    {k : Int} (hl : options.limit = JsNum.num k) (hk : 0 ≤ k)
    (hne : docs0 ≠ []) : finalBatchState docs0 options ≠ [] := by
  unfold finalBatchState
  by_cases hm : hasMoreOf options docs0 = true
  · have hm' := hm
    simp only [hasMoreOf, hl, JsNum.truthy, JsNum.natGt, Bool.and_eq_true,
      decide_eq_true_eq, gt_iff_lt] at hm'
    have hlen : 2 ≤ docs0.length := by omega
    have : docs0.dropLast ≠ [] := by
      have := List.length_dropLast docs0
      intro hcon
      rw [hcon] at this
      simp at this
      omega
    simp only [hm, if_true]
    cases hp : strTruthy options.previous <;> simp [this]
  · have hm' : hasMoreOf options docs0 = false := by
      cases h : hasMoreOf options docs0
      · rfl
      · exact absurd h hm
    simp only [hm', Bool.false_eq_true, if_false]
    cases hp : strTruthy options.previous <;> simp [hne]

/-- With a non-negative integer limit and a non-empty batch,
`prepareResponse` always returns a result (no `TypeError`). -/
theorem prepareResponse_total {docs0 : List JsVal} {options : IPaginateOptions}
    {totalDocs : Option Int} {k : Int} (hl : options.limit = JsNum.num k)
    (hk : 0 ≤ k) (hne : docs0 ≠ []) :
    ∃ r, prepareResponse docs0 options totalDocs = some r := by
  have hfin := finalBatchState_ne_nil hl hk hne
  have hgl : ∃ d, (finalBatchState docs0 options).getLast? = some d := by
    cases h : (finalBatchState docs0 options).getLast? with
    | none => exact absurd (List.getLast?_eq_none_iff.mp h) hfin
    | some d => exact ⟨d, rfl⟩
  have hhd : ∃ d, (finalBatchState docs0 options).head? = some d := by
    cases h : (finalBatchState docs0 options).head? with
    | none => exact absurd (List.head?_eq_none_iff.mp h) hfin
    | some d => exact ⟨d, rfl⟩
  obtain ⟨d1, hd1⟩ := hgl
  obtain ⟨d2, hd2⟩ := hhd
  unfold prepareResponse
  dsimp only
  rw [hd1, hd2, edgeCursor_some_doc, edgeCursor_some_doc]
  exact ⟨_, rfl⟩

/-! ## Claims -/

/-- C1: for an assembled page with positive effective limit `N` and fetched
batch `docs0` (`hasMore` meaning `docs0.length > N`): `hasPrevious` holds
iff an afterCursor (`options.next`) was supplied or a beforeCursor
(`options.previous`) was supplied and `hasMore` holds; `hasNext` holds iff
a beforeCursor was supplied or `hasMore` holds; in particular a supplied
afterCursor makes `hasPrevious` unconditionally true. -/
theorem C1_edge_flags (docs0 : List JsVal) (options : IPaginateOptions)
    (totalDocs : Option Int) (N : Int) (r : IPaginateResult)
    (hN : 0 < N) (hl : options.limit = JsNum.num N)
    (hr : prepareResponse docs0 options totalDocs = some r) :
    (r.hasPrevious = true ↔
      strTruthy options.next = true ∨
        (strTruthy options.previous = true ∧ N < (docs0.length : Int))) ∧
    (r.hasNext = true ↔
      strTruthy options.previous = true ∨ N < (docs0.length : Int)) ∧
    (strTruthy options.next = true → r.hasPrevious = true) := by
  obtain ⟨-, hp, hn, -, -, -⟩ := prepareResponse_some_inv hr
  have hm : hasMoreOf options docs0 = decide (N < (docs0.length : Int)) := by
    simp only [hasMoreOf, hl, JsNum.truthy, JsNum.natGt, gt_iff_lt]
    have hne : N ≠ 0 := by omega
    simp [hne]
  rw [hp, hn, hm]
  refine ⟨?_, ?_, ?_⟩
  · simp
  · simp
  · intro h; simp [h]

/-- C1 witness: a one-document batch, limit 5, afterCursor supplied. -/
theorem C1_edge_flags_witness :
    prepareResponse [JsVal.vint 1]
      (IPaginateOptions.mk (JsNum.num 5) (some "x") none []) none =
      some (IPaginateResult.mk [JsVal.vint 1] true false none
        (some (prepareCursor (JsVal.vint 1) [])) none) ∧
    (((IPaginateResult.mk [JsVal.vint 1] true false none
        (some (prepareCursor (JsVal.vint 1) [])) none).hasPrevious = true ↔
      strTruthy (some "x") = true ∨
        (strTruthy (none : Option String) = true ∧ (5 : Int) < 1)) ∧
    ((IPaginateResult.mk [JsVal.vint 1] true false none
        (some (prepareCursor (JsVal.vint 1) [])) none).hasNext = true ↔
      strTruthy (none : Option String) = true ∨ (5 : Int) < 1) ∧
    (strTruthy (some "x") = true →
      (IPaginateResult.mk [JsVal.vint 1] true false none
        (some (prepareCursor (JsVal.vint 1) [])) none).hasPrevious = true)) :=
  ⟨rfl, C1_edge_flags [JsVal.vint 1]
    (IPaginateOptions.mk (JsNum.num 5) (some "x") none []) none 5 _
    (by norm_num) rfl rfl⟩

/-- C2: for a fetched batch (of at most `N + 1` documents, as produced by a
fetch capped at `limit + 1`) and positive effective limit `N`, the returned
documents are the batch with its last element dropped exactly when the
batch exceeds `N` (giving exactly `N` documents then, and `min length N` in
general), reversed exactly when a beforeCursor was supplied; when the batch
does not exceed `N`, nothing is dropped and the overflow flag is false. -/
theorem C2_trim_and_reverse (docs0 : List JsVal) (options : IPaginateOptions)
    (totalDocs : Option Int) (N : Int) (r : IPaginateResult)
    (hN : 0 < N) (hl : options.limit = JsNum.num N)
    (hfetch : (docs0.length : Int) ≤ N + 1)
    (hr : prepareResponse docs0 options totalDocs = some r) :
    r.docs = (if strTruthy options.previous then
        (if N < (docs0.length : Int) then docs0.dropLast else docs0).reverse
      else (if N < (docs0.length : Int) then docs0.dropLast else docs0)) ∧
    ((r.docs.length : Int) = min (docs0.length : Int) N) ∧
    ((docs0.length : Int) ≤ N → hasMoreOf options docs0 = false ∧
      r.docs = (if strTruthy options.previous then docs0.reverse else docs0)) := by
  obtain ⟨hd, -, -, -, -, -⟩ := prepareResponse_some_inv hr
  have hm : hasMoreOf options docs0 = decide (N < (docs0.length : Int)) := by
    simp only [hasMoreOf, hl, JsNum.truthy, JsNum.natGt, gt_iff_lt]
    have hne : N ≠ 0 := by omega
    simp [hne]
  have hdocs : r.docs = (if strTruthy options.previous then
      (if N < (docs0.length : Int) then docs0.dropLast else docs0).reverse
    else (if N < (docs0.length : Int) then docs0.dropLast else docs0)) := by
    rw [hd]
    unfold finalBatchState
    rw [hm]
    by_cases hp : strTruthy options.previous = true <;>
      by_cases hov : N < (docs0.length : Int) <;> simp [hp, hov]
  refine ⟨hdocs, ?_, ?_⟩
  · rw [hdocs]
    by_cases hp : strTruthy options.previous = true <;>
      by_cases hov : N < (docs0.length : Int) <;>
        simp [hp, hov, List.length_dropLast] <;> omega
  · intro hle
    have hov : ¬ N < (docs0.length : Int) := by omega
    refine ⟨by rw [hm]; simp [hov], ?_⟩
    rw [hdocs]
    simp [hov]

/-- The batch, options, and result of the C2 witness scenario: three
documents, limit 2, backward paging. -/
def batchW : List JsVal := [JsVal.vint 1, JsVal.vint 2, JsVal.vint 3]

/-- Options of the C2 witness scenario. -/
def optionsW : IPaginateOptions :=
  IPaginateOptions.mk (JsNum.num 2) none (some "p") []

/-- Result of the C2 witness scenario. -/
def resultW : IPaginateResult :=
  IPaginateResult.mk [JsVal.vint 2, JsVal.vint 1] true true
    (some (prepareCursor (JsVal.vint 1) []))
    (some (prepareCursor (JsVal.vint 2) [])) none

/-- C2 witness: the scenario's hypotheses hold and the theorem applies. -/
theorem C2_trim_and_reverse_witness :
    resultW.docs = (if strTruthy optionsW.previous then
        (if 2 < (batchW.length : Int) then batchW.dropLast else batchW).reverse
      else (if 2 < (batchW.length : Int) then batchW.dropLast else batchW)) ∧
    ((resultW.docs.length : Int) = min (batchW.length : Int) 2) ∧
    ((batchW.length : Int) ≤ 2 → hasMoreOf optionsW batchW = false ∧
      resultW.docs =
        (if strTruthy optionsW.previous then batchW.reverse else batchW)) :=
  C2_trim_and_reverse batchW optionsW none 2 resultW
    (by norm_num) rfl (by decide) (by rfl)

/-- C3 (code bug in `aggregatePaged`): `findPaged` attaches `totalDocs`
exactly when `dontReturnTotalDocs` is NOT set, but `aggregatePaged` has the
test inverted (`const countDocs = pluginOptions &&
pluginOptions.dontReturnTotalDocs` with no negation): it computes and
attaches a count exactly when `dontReturnTotalDocs` IS set, and never
counts when it is unset. -/
theorem C3_totalDocs_inverted_in_aggregatePaged :
    (findPaged (some (IPluginOptions.mk true false none))
        (IPaginateOptions.mk (JsNum.num 2) none none [])
        (fun _ => [JsVal.vint 1]) 5).map IPaginateResult.totalDocs =
      some none ∧
    (findPaged none (IPaginateOptions.mk (JsNum.num 2) none none [])
        (fun _ => [JsVal.vint 1]) 5).map IPaginateResult.totalDocs =
      some (some 5) ∧
    (aggregatePaged (some (IPluginOptions.mk true false none))
        (IPaginateOptions.mk (JsNum.num 2) none none [])
        (fun _ => [JsVal.vint 1]) [5]).map IPaginateResult.totalDocs =
      some (some 5) ∧
    (aggregatePaged none (IPaginateOptions.mk (JsNum.num 2) none none [])
        (fun _ => [JsVal.vint 1]) [5]).map IPaginateResult.totalDocs =
      some none :=
  ⟨rfl, rfl, rfl, rfl⟩

/-- C4 (code bug in `aggregatePaged`): for a negative or `NaN` limit,
`findPaged` substitutes the default limit (10 when none is configured) and
caps the fetch at `defaultLimit + 1 = 11`, but `aggregatePaged` computes
its `$limit` value from the original invalid limit (the
`options.limit` assignment happens two lines later): it sends `-4` for
limit `-5`, and `NaN` for limit `NaN`, instead of 11.  Page assembly does
use the substituted default in both. -/
theorem C4_invalid_limit_fetch_cap_mismatch :
    findPagedFetchLimit none (JsNum.num (-5)) = JsNum.num 11 ∧
    findPagedFetchLimit none JsNum.nan = JsNum.num 11 ∧
    sanitizedLimit none (JsNum.num (-5)) = JsNum.num 10 ∧
    sanitizedLimit none JsNum.nan = JsNum.num 10 ∧
    aggregatePagedFetchLimit none (JsNum.num (-5)) = JsNum.num (-4) ∧
    aggregatePagedFetchLimit none JsNum.nan = JsNum.nan :=
  ⟨rfl, rfl, rfl, rfl, rfl, rfl⟩

/-- C5: with limit 0 and unlimited results allowed, `findPaged` issues the
fetch with no document cap (`.limit(0)`), the overflow test is false for
every batch (so nothing is ever trimmed), and on success `hasNext` is
exactly "a beforeCursor was supplied". -/
theorem C5_unlimited_mode (po : Option IPluginOptions)
    (options : IPaginateOptions) (fetch : JsNum → List JsVal) (count : Int)
    (h0 : options.limit = JsNum.num 0)
    (hallow : readDontAllowUnlimited po = false) :
    findPagedFetchLimit po options.limit = JsNum.num 0 ∧
    (∀ B : List JsVal,
      hasMoreOf (IPaginateOptions.mk (sanitizedLimit po options.limit)
        options.next options.previous options.sortOptions) B = false) ∧
    (∀ r : IPaginateResult, findPaged po options fetch count = some r →
      r.docs = (if strTruthy options.previous then (fetch (JsNum.num 0)).reverse
        else fetch (JsNum.num 0)) ∧
      r.hasNext = strTruthy options.previous) := by
  have hsan : sanitizedLimit po options.limit = JsNum.num 0 := by
    rw [h0]
    simp [sanitizedLimit, useDefaultLimit, JsNum.isNaN, JsNum.ltInt,
      JsNum.eqInt, hallow]
  have hunl : unlimitedMode po options.limit = true := by
    rw [h0]
    simp [unlimitedMode, JsNum.eqInt, hallow]
  have hfetchl : findPagedFetchLimit po options.limit = JsNum.num 0 := by
    simp [findPagedFetchLimit, hunl]
  have hnomore : ∀ B : List JsVal,
      hasMoreOf (IPaginateOptions.mk (sanitizedLimit po options.limit)
        options.next options.previous options.sortOptions) B = false := by
    intro B
    simp [hasMoreOf, hsan, JsNum.truthy]
  refine ⟨hfetchl, hnomore, ?_⟩
  intro r hr
  unfold findPaged at hr
  dsimp only at hr
  rw [hfetchl] at hr
  have hres : ∀ t, prepareResponse (fetch (JsNum.num 0))
      (IPaginateOptions.mk (sanitizedLimit po options.limit)
        options.next options.previous options.sortOptions) t = some r →
      r.docs = (if strTruthy options.previous then (fetch (JsNum.num 0)).reverse
        else fetch (JsNum.num 0)) ∧
      r.hasNext = strTruthy options.previous := by
    intro t ht
    obtain ⟨hd, -, hn, -, -, -⟩ := prepareResponse_some_inv ht
    constructor
    · rw [hd]
      unfold finalBatchState
      rw [hnomore (fetch (JsNum.num 0))]
      simp
    · rw [hn, hnomore (fetch (JsNum.num 0))]
      simp
  by_cases hc : readDontReturnTotalDocs po = true
  · rw [if_pos hc] at hr
    exact hres none hr
  · rw [if_neg hc] at hr
    exact hres (some count) hr

/-- C5 witness: limit 0, no plugin options, a two-document batch, backward
paging. -/
theorem C5_unlimited_mode_witness :
    findPagedFetchLimit none (JsNum.num 0) = JsNum.num 0 ∧
    (∀ B : List JsVal,
      hasMoreOf (IPaginateOptions.mk (sanitizedLimit none (JsNum.num 0))
        none (some "p") []) B = false) ∧
    (∀ r : IPaginateResult,
      findPaged none (IPaginateOptions.mk (JsNum.num 0) none (some "p") [])
        (fun _ => [JsVal.vint 1, JsVal.vint 2]) 2 = some r →
      r.docs = (if strTruthy (some "p") then
          ([JsVal.vint 1, JsVal.vint 2] : List JsVal).reverse
        else [JsVal.vint 1, JsVal.vint 2]) ∧
      r.hasNext = strTruthy (some "p")) :=
  C5_unlimited_mode none (IPaginateOptions.mk (JsNum.num 0) none (some "p") [])
    (fun _ => [JsVal.vint 1, JsVal.vint 2]) 2 rfl rfl

/-- C6: in an assembled result with non-empty returned documents, the next
cursor is present iff `hasNext` and encodes the cursor value tuple of the
last returned document, and the previous cursor is present iff
`hasPrevious` and encodes the tuple of the first returned document. -/
theorem C6_edge_cursors (docs0 : List JsVal) (options : IPaginateOptions)
    (totalDocs : Option Int) (r : IPaginateResult)
    (hr : prepareResponse docs0 options totalDocs = some r)
    (_hne : r.docs ≠ []) :
    (r.next = if r.hasNext = true then (r.docs.getLast?).map (fun d =>
      bsonUrlEncoding.encode (cursorValueTuple options.sortOptions d))
      else none) ∧
    (r.previous = if r.hasPrevious = true then (r.docs.head?).map (fun d =>
      bsonUrlEncoding.encode (cursorValueTuple options.sortOptions d))
      else none) ∧
    (r.next.isSome = r.hasNext) ∧ (r.previous.isSome = r.hasPrevious) := by
  obtain ⟨-, -, -, -, hnx, hpv⟩ := prepareResponse_some_inv hr
  have h1 : r.next = if r.hasNext = true then (r.docs.getLast?).map (fun d =>
      bsonUrlEncoding.encode (cursorValueTuple options.sortOptions d))
      else none := by
    cases hf : r.hasNext with
    | false =>
        rw [hf] at hnx
        unfold edgeCursor at hnx
        simp at hnx
        simp [← hnx]
    | true =>
        rw [hf] at hnx
        unfold edgeCursor at hnx
        cases hg : r.docs.getLast? with
        | none => rw [hg] at hnx; simp at hnx
        | some d =>
            rw [hg] at hnx
            simp at hnx
            simp [← hnx, prepareCursor]
  have h2 : r.previous = if r.hasPrevious = true then (r.docs.head?).map
      (fun d => bsonUrlEncoding.encode (cursorValueTuple options.sortOptions d))
      else none := by
    cases hf : r.hasPrevious with
    | false =>
        rw [hf] at hpv
        unfold edgeCursor at hpv
        simp at hpv
        simp [← hpv]
    | true =>
        rw [hf] at hpv
        unfold edgeCursor at hpv
        cases hg : r.docs.head? with
        | none => rw [hg] at hpv; simp at hpv
        | some d =>
            rw [hg] at hpv
            simp at hpv
            simp [← hpv, prepareCursor]
  refine ⟨h1, h2, ?_, ?_⟩
  · rw [h1]
    cases hf : r.hasNext with
    | false => simp
    | true =>
        rw [hf] at hnx
        unfold edgeCursor at hnx
        cases hg : r.docs.getLast? with
        | none => rw [hg] at hnx; simp at hnx
        | some d => simp [hg]
  · rw [h2]
    cases hf : r.hasPrevious with
    | false => simp
    | true =>
        rw [hf] at hpv
        unfold edgeCursor at hpv
        cases hg : r.docs.head? with
        | none => rw [hg] at hpv; simp at hpv
        | some d => simp [hg]

/-- C6 witness: the backward-paging scenario with both cursors present. -/
theorem C6_edge_cursors_witness :
    (resultW.next = if resultW.hasNext = true then
      (resultW.docs.getLast?).map (fun d =>
        bsonUrlEncoding.encode (cursorValueTuple optionsW.sortOptions d))
      else none) ∧
    (resultW.previous = if resultW.hasPrevious = true then
      (resultW.docs.head?).map (fun d =>
        bsonUrlEncoding.encode (cursorValueTuple optionsW.sortOptions d))
      else none) ∧
    (resultW.next.isSome = resultW.hasNext) ∧
    (resultW.previous.isSome = resultW.hasPrevious) :=
  C6_edge_cursors batchW optionsW none resultW (by rfl) (by simp [resultW])

theorem filter_ne_of_not_mem {l : List String} {a : String} (h : a ∉ l) :
    l.filter (fun k => k ≠ a) = l := by
  rw [List.filter_eq_self]
  intro b hb
  have hba : b ≠ a := fun hba => h (hba ▸ hb)
  simp [hba]

theorem length_filter_ne_of_nodup {l : List String} (hnd : l.Nodup)
    (a : String) :
    (l.filter (fun k => k ≠ a)).length =
      if a ∈ l then l.length - 1 else l.length := by
  induction l with
  | nil => simp
  | cons x l ih =>
      obtain ⟨hx, hl⟩ := List.nodup_cons.mp hnd
      by_cases hxa : x = a
      · subst hxa
        have hfx : (x :: l).filter (fun k => k ≠ x) =
            l.filter (fun k => k ≠ x) := by
          simp [List.filter_cons]
        rw [hfx, filter_ne_of_not_mem hx, if_pos (List.mem_cons_self x l),
          List.length_cons]
        omega
      · have hfx : (x :: l).filter (fun k => k ≠ a) =
            x :: l.filter (fun k => k ≠ a) := by
          simp [List.filter_cons, hxa]
        rw [hfx, List.length_cons, ih hl]
        by_cases hal : a ∈ l
        · have h1 : 1 ≤ l.length := List.length_pos.mpr (List.ne_nil_of_mem hal)
          rw [if_pos hal, if_pos (List.mem_cons_of_mem x hal), List.length_cons]
          omega
        · have hnm : a ∉ x :: l := by
            intro hc
            rcases List.mem_cons.mp hc with h1 | h1
            · exact hxa h1.symm
            · exact hal h1
          rw [if_neg hal, if_neg hnm, List.length_cons]

/-- C7: for every document and sort specification, the tuple encoded by
`prepareCursor` is one `R.path`-extracted value per non-`_id` sort key (in
specification order, via the dotted path), followed by exactly the
document's `_id`; its length equals the number of effective sort keys (the
caller's keys with `_id` appended when absent) and its last element is the
identifier, also when `_id` occurs in the sort specification. -/
theorem C7_cursor_tuple_shape (sortOptions : SortOptions) (doc : JsVal)
    (hnd : (sortOptions.map Prod.fst).Nodup) :
    cursorValueTuple sortOptions doc =
      ((sortOptions.map Prod.fst).filter (fun k => k ≠ "_id")).map
        (fun k => pathLookup (k.splitOn ".") doc) ++ [getId doc] ∧
    (cursorValueTuple sortOptions doc).length =
      (effectiveSortKeys (sortOptions.map Prod.fst)).length ∧
    (cursorValueTuple sortOptions doc).getLast? = some (getId doc) := by
  refine ⟨rfl, ?_, ?_⟩
  · rw [cursorValueTuple, effectiveSortKeys, keysExceptId]
    rw [List.length_append, List.length_append, List.length_map,
      length_filter_ne_of_nodup hnd "_id"]
    by_cases hm : "_id" ∈ sortOptions.map Prod.fst
    · have h1 : 1 ≤ (sortOptions.map Prod.fst).length :=
        List.length_pos.mpr (List.ne_nil_of_mem hm)
      rw [if_pos hm, if_pos hm]
      simp only [List.length_nil, List.length_cons]
      omega
    · rw [if_neg hm, if_neg hm]
      rfl
  · rw [cursorValueTuple]
    simp

/-- C7 witness: a sort specification that itself contains `_id` plus a
dotted path. -/
theorem C7_cursor_tuple_shape_witness :
    (([("a.b", 1), ("_id", 1)] : SortOptions).map Prod.fst).Nodup ∧
    (cursorValueTuple [("a.b", 1), ("_id", 1)]
        (JsVal.vdoc [("_id", JsVal.void 9)]) =
      ((([("a.b", 1), ("_id", 1)] : SortOptions).map Prod.fst).filter
        (fun k => k ≠ "_id")).map
          (fun k => pathLookup (k.splitOn ".")
            (JsVal.vdoc [("_id", JsVal.void 9)])) ++
        [getId (JsVal.vdoc [("_id", JsVal.void 9)])] ∧
    (cursorValueTuple [("a.b", 1), ("_id", 1)]
        (JsVal.vdoc [("_id", JsVal.void 9)])).length =
      (effectiveSortKeys (([("a.b", 1), ("_id", 1)] : SortOptions).map
        Prod.fst)).length ∧
    (cursorValueTuple [("a.b", 1), ("_id", 1)]
        (JsVal.vdoc [("_id", JsVal.void 9)])).getLast? =
      some (getId (JsVal.vdoc [("_id", JsVal.void 9)]))) :=
  ⟨by decide, C7_cursor_tuple_shape [("a.b", 1), ("_id", 1)]
    (JsVal.vdoc [("_id", JsVal.void 9)]) (by decide)⟩

/-- C8: for every tuple of supported typed values (integers, floating
point, strings, dates, identifiers, null), decoding the encoding yields the
tuple back with every value's type preserved. -/
theorem C8_decode_encode_roundtrip (vs : List JsVal)
    (h : ∀ v ∈ vs, SupportedVal v = true) :
    bsonUrlEncoding.decode (bsonUrlEncoding.encode vs) = some vs := by
  unfold bsonUrlEncoding.encode bsonUrlEncoding.decode
  have hdata : (String.mk (encNat vs.length ++ vs.flatMap encVal)).data =
      encNat vs.length ++ vs.flatMap encVal := rfl
  rw [hdata, parseNat_encNat]
  have h2 : parseVals vs.length (vs.flatMap encVal ++ []) = some (vs, []) :=
    parseVals_encVals vs h []
  rw [List.append_nil] at h2
  dsimp only
  rw [h2]
  simp

/-- C8 witness: a tuple containing each of the six supported kinds. -/
theorem C8_decode_encode_roundtrip_witness :
    ([JsVal.vnull, JsVal.vint (-5), JsVal.vdouble 123, JsVal.vstr "ab",
      JsVal.vdate 99, JsVal.void 7].all SupportedVal) = true ∧
    bsonUrlEncoding.decode (bsonUrlEncoding.encode
      [JsVal.vnull, JsVal.vint (-5), JsVal.vdouble 123, JsVal.vstr "ab",
       JsVal.vdate 99, JsVal.void 7]) =
      some [JsVal.vnull, JsVal.vint (-5), JsVal.vdouble 123, JsVal.vstr "ab",
       JsVal.vdate 99, JsVal.void 7] :=
  ⟨rfl, C8_decode_encode_roundtrip
    [JsVal.vnull, JsVal.vint (-5), JsVal.vdouble 123, JsVal.vstr "ab",
     JsVal.vdate 99, JsVal.void 7]
    (by intro v hv; fin_cases hv <;> rfl)⟩

/-- C9 counterexample: with batch `[1,2,3]` and limit 2, the caller's batch
array after the call holds `[1,2]` — `_docs.pop()` removed the sentinel in
place (and backward paging would additionally reverse in place), so the
batch is not left unchanged. -/
theorem C9_counterexample_mutation :
    finalBatchState [JsVal.vint 1, JsVal.vint 2, JsVal.vint 3]
      (IPaginateOptions.mk (JsNum.num 2) none none []) ≠
      [JsVal.vint 1, JsVal.vint 2, JsVal.vint 3] ∧
    (prepareResponse [JsVal.vint 1, JsVal.vint 2, JsVal.vint 3]
      (IPaginateOptions.mk (JsNum.num 2) none none []) none).map
        IPaginateResult.docs = some [JsVal.vint 1, JsVal.vint 2] := by
  constructor
  · intro h
    exact absurd (congrArg List.length h) (by decide)
  · rfl

/-- C9 amended: page assembly is synchronous and a function of the fetched
batch and options alone, but it mutates the caller's batch array in place:
after the call the array holds the trimmed (and, for backward paging,
in-place reversed) sequence `finalBatchState`, which is exactly what the
result's `docs` field aliases; the array is left unchanged precisely when
there was no overflow trimming and no backward paging. -/
theorem C9_batch_mutation (docs0 : List JsVal) (options : IPaginateOptions)
    (totalDocs : Option Int) (r : IPaginateResult)
    (hr : prepareResponse docs0 options totalDocs = some r) :
    r.docs = finalBatchState docs0 options ∧
    (hasMoreOf options docs0 = false → strTruthy options.previous = false →
      finalBatchState docs0 options = docs0) := by
  refine ⟨(prepareResponse_some_inv hr).1, ?_⟩
  intro h1 h2
  unfold finalBatchState
  simp [h1, h2]

/-- C9 witness: a batch of one document, limit 3, no cursors. -/
theorem C9_batch_mutation_witness :
    prepareResponse [JsVal.vint 7]
      (IPaginateOptions.mk (JsNum.num 3) none none []) none =
      some (IPaginateResult.mk [JsVal.vint 7] false false none none none) ∧
    ((IPaginateResult.mk [JsVal.vint 7] false false none none none).docs =
      finalBatchState [JsVal.vint 7]
        (IPaginateOptions.mk (JsNum.num 3) none none []) ∧
    (hasMoreOf (IPaginateOptions.mk (JsNum.num 3) none none [])
        [JsVal.vint 7] = false →
      strTruthy (IPaginateOptions.mk (JsNum.num 3) none none []).previous =
        false →
      finalBatchState [JsVal.vint 7]
        (IPaginateOptions.mk (JsNum.num 3) none none []) = [JsVal.vint 7])) :=
  ⟨rfl, C9_batch_mutation [JsVal.vint 7]
    (IPaginateOptions.mk (JsNum.num 3) none none []) none
    (IPaginateResult.mk [JsVal.vint 7] false false none none none) rfl⟩

/-- C10 counterexample: an empty batch with a supplied cursor sets an edge
flag with no documents, and `prepareResponse` then reads the `_id` of a
missing document (`docs[0]` / `docs[docs.length-1]` is `undefined`): it
throws a `TypeError` (modelled `none`) instead of returning a result. -/
theorem C10_counterexample_empty_batch :
    prepareResponse []
      (IPaginateOptions.mk (JsNum.num 2) (some "tok") none []) none = none ∧
    prepareResponse []
      (IPaginateOptions.mk (JsNum.num 2) none (some "tok") []) none = none :=
  ⟨rfl, rfl⟩

/-- C10 amended: with a non-negative integer limit, whenever overflow
(`hasMore`) sets a flag the trimmed sequence is non-empty, and every
non-empty batch produces a result; but with an empty batch and a supplied
afterCursor or beforeCursor the corresponding flag is set while the
sequence is empty, and `prepareResponse` throws (returns no `PageResult`)
when producing the cursor. -/
theorem C10_flag_safety (docs0 : List JsVal) (options : IPaginateOptions)
    (totalDocs : Option Int) (k : Int)
    (hl : options.limit = JsNum.num k) (hk : 0 ≤ k) :
    (hasMoreOf options docs0 = true → finalBatchState docs0 options ≠ []) ∧
    (docs0 ≠ [] →
      (prepareResponse docs0 options totalDocs).isSome = true) ∧
    (docs0 = [] →
      (strTruthy options.next || strTruthy options.previous) = true →
      prepareResponse docs0 options totalDocs = none) := by
  refine ⟨?_, ?_, ?_⟩
  · intro hm
    have hne : docs0 ≠ [] := by
      have hm' := hm
      simp only [hasMoreOf, hl, JsNum.truthy, JsNum.natGt, Bool.and_eq_true,
        decide_eq_true_eq, gt_iff_lt] at hm'
      intro hc
      rw [hc] at hm'
      simp at hm'
      omega
    exact finalBatchState_ne_nil hl hk hne
  · intro hne
    obtain ⟨r, hr⟩ := @prepareResponse_total docs0 options totalDocs k hl hk hne
    rw [hr]
    rfl
  · intro hc hcur
    subst hc
    have hm : hasMoreOf options [] = false := by
      simp [hasMoreOf, hl, JsNum.truthy, JsNum.natGt]
      omega
    have hfin : finalBatchState [] options = [] := by
      unfold finalBatchState
      simp [hm]
    unfold prepareResponse
    dsimp only
    rw [hfin, hm]
    cases hnx : strTruthy options.next with
    | true => simp [edgeCursor, hnx]
    | false =>
        cases hpv : strTruthy options.previous with
        | true => simp [edgeCursor, hpv]
        | false =>
            rw [hnx, hpv] at hcur
            simp at hcur

/-- C10 witness: limit 2, a one-document batch, afterCursor supplied. -/
theorem C10_flag_safety_witness :
    (hasMoreOf (IPaginateOptions.mk (JsNum.num 2) (some "x") none [])
        [JsVal.vint 1] = true →
      finalBatchState [JsVal.vint 1]
        (IPaginateOptions.mk (JsNum.num 2) (some "x") none []) ≠ []) ∧
    (([JsVal.vint 1] : List JsVal) ≠ [] →
      (prepareResponse [JsVal.vint 1]
        (IPaginateOptions.mk (JsNum.num 2) (some "x") none [])
        none).isSome = true) ∧
    (([JsVal.vint 1] : List JsVal) = [] →
      (strTruthy (some "x") || strTruthy (none : Option String)) = true →
      prepareResponse [JsVal.vint 1]
        (IPaginateOptions.mk (JsNum.num 2) (some "x") none []) none = none) :=
  C10_flag_safety [JsVal.vint 1]
    (IPaginateOptions.mk (JsNum.num 2) (some "x") none []) none 2
    rfl (by norm_num)
